import Mathlib

/-!
# Verification of the simulated-annealing optimizer (`simulated-annealing/annealing.py`)

Shallow embedding of the annealing engine: the per-element periodic wrap,
the Boltzmann acceptance probability, the two temperature schedules, the
visit-scale schedule, and the main iteration loop for both the continuous
and the discrete domain type.  Python floats are modelled as real numbers;
random draws are modelled as oracle inputs (arbitrary streams supplied to
the function); fallible operations (the `decay_type` check, Python's
division by zero when `niter = 1`) are modelled with `Except`.
-/

namespace Annealing

/-- Errors the Python code can raise: `ValueError` (explicitly raised for a
bad `decay_type`) and `ZeroDivisionError` (raised by Python when an exact
division by the integer `niter - 1 = 0` occurs). -/
inductive AnnealErr where
  | valueError (msg : String)
  | zeroDivisionError
  deriving DecidableEq

/-- `np.finfo(float).resolution` = `1e-15`, the constant used by the
temperature sanity check in `annealing`. -/
def npFloatResolution : ℝ := 1e-15

/-- The condition of the temperature sanity check in `annealing`:
`min(final_temp, init_temp) < 0.99999*np.finfo(float).resolution`.
In the source this condition guards a line that merely constructs
`ValueError(...)` without `raise`, so nothing is thrown when it holds. -/
def tempBelowThreshold (init_temp final_temp : ℝ) : Prop :=
  min final_temp init_temp < 0.99999 * npFloatResolution

/-- Python's float modulo `a % b`, which equals `a - b*⌊a/b⌋`
(the remainder takes the sign of the divisor). -/
noncomputable def fmod (a b : ℝ) : ℝ := a - b * ⌊a / b⌋

/-- One element of `_periodic_wrap`: if `x < xmin` or `x > xmax`, return
`xmin + (x-xmin) % (xmax-xmin)` and the flag `true`; otherwise pass `x`
through with the flag `false`. -/
noncomputable def wrapOne (x xmin xmax : ℝ) : ℝ × Bool :=
  if x < xmin ∨ x > xmax then (xmin + fmod (x - xmin) (xmax - xmin), true)
  else (x, false)

/-- `_periodic_wrap(xs, xlimits)`: wrap every component to its `[min, max]`
pair, returning the wrapped values and the per-component wrap flags. -/
noncomputable def periodic_wrap (xs : List ℝ) (xlimits : List (ℝ × ℝ)) :
    List ℝ × List Bool :=
  let pairs := (xs.zip xlimits).map fun p => wrapOne p.1 p.2.1 p.2.2
  (pairs.map Prod.fst, pairs.map Prod.snd)

/-- `_accept_boltzmann(df, temp)`: with `a = -1*df/temp`, return `1` when
`a >= 0` and `np.exp(a)` otherwise.  The second component instruments the
call: it is `true` exactly when the `np.exp` branch was taken. -/
noncomputable def accept_boltzmann (df temp : ℝ) : ℝ × Bool :=
  if -1 * df / temp ≥ 0 then (1, false) else (Real.exp (-1 * df / temp), true)

/-- `decay_fac = np.log(final_temp/init_temp)*(1/(niter-1))`, computed before
the loop when `decay_type == 'exp'`.  (`niter = 1` makes the source raise
`ZeroDivisionError`; that case is excluded at the call sites below.) -/
noncomputable def decay_fac (init_temp final_temp : ℝ) (niter : ℕ) : ℝ :=
  Real.log (final_temp / init_temp) * (1 / ((niter : ℝ) - 1))

/-- The linear temperature schedule of the loop body:
`temp = init_temp - (k/(niter-1))*init_temp + (k/(niter-1))*final_temp`. -/
noncomputable def linearTemp (init_temp final_temp : ℝ) (niter k : ℕ) : ℝ :=
  init_temp - ((k : ℝ) / ((niter : ℝ) - 1)) * init_temp
            + ((k : ℝ) / ((niter : ℝ) - 1)) * final_temp

/-- The exponential temperature schedule of the loop body:
`temp = init_temp*np.exp(decay_fac*k)`. -/
noncomputable def expTemp (init_temp final_temp : ℝ) (niter k : ℕ) : ℝ :=
  init_temp * Real.exp (decay_fac init_temp final_temp niter * (k : ℝ))

/-- The temperature at step `k`: the source branches on `decay_type`
(`'linear'` picks the linear schedule, otherwise — `decay_type` having been
validated to be `'exp'` — the exponential one). -/
noncomputable def tempAt (decay_type : String) (init_temp final_temp : ℝ)
    (niter k : ℕ) : ℝ :=
  if decay_type = "linear" then linearTemp init_temp final_temp niter k
  else expTemp init_temp final_temp niter k

/-- The visit scale at step `k`:
`visit_scale = max(init_visit_scale*(temp/init_temp), min_visit_scale)`. -/
noncomputable def visitScaleAt (decay_type : String) (init_temp final_temp : ℝ)
    (niter : ℕ) (init_visit_scale min_visit_scale : ℝ) (k : ℕ) : ℝ :=
  max (init_visit_scale * (tempAt decay_type init_temp final_temp niter k / init_temp))
      min_visit_scale

/-- The mutable state of the annealing cycle: the current input vector `x`
and its cost value (`fun` in the source, renamed `fval` because `fun` is a
Lean keyword).  `calls` instruments the run with the number of
cost-function invocations performed so far (not a source variable). -/
structure AState (α : Type) where
  x : List α
  fval : ℝ
  calls : ℕ

/-- Run a step function over a list of iteration indices, stopping at the
first error (a Python exception aborts the loop). -/
def runLoop {α E : Type} (step : ℕ → α → Except E α) : List ℕ → α → Except E α
  | [], s => .ok s
  | k :: ks, s => (step k s).bind (runLoop step ks)

/-- The candidate generation for `domain_type == 'continuous'`:
`x_new = x + np.random.normal(scale=visit_scale, size=dim)` followed by
`x_new, _ = _periodic_wrap(x_new, domain)`.  The normal draw is modelled by
an oracle of standard-normal draws scaled by `visit_scale`
(`np.random.normal(scale=s)` is `s` times a standard normal draw). -/
noncomputable def contCandidate (domain : List (ℝ × ℝ)) (visit_scale : ℝ)
    (draws : List ℝ) (x : List ℝ) : List ℝ :=
  (periodic_wrap ((x.zip draws).map fun p => p.1 + visit_scale * p.2) domain).1

/-- One iteration of the annealing cycle for `domain_type == 'continuous'`,
at index `k`.  With `decay_type == 'linear'` and `niter == 1` the
temperature expression `k/(niter-1)` raises `ZeroDivisionError` in Python.
Otherwise: compute `temp` and `visit_scale`, generate the candidate,
evaluate the cost, compare `p = _accept_boltzmann(df, temp)` against the
uniform draw `rn`, and update `x`/`fun` only on acceptance. -/
noncomputable def contStep (f : List ℝ → ℝ) (domain : List (ℝ × ℝ))
    (init_temp final_temp : ℝ) (niter : ℕ) (decay_type : String)
    (init_visit_scale min_visit_scale : ℝ)
    (stdNormals : ℕ → List ℝ) (rnd : ℕ → ℝ)
    (k : ℕ) (s : AState ℝ) : Except AnnealErr (AState ℝ) :=
  if decay_type = "linear" ∧ niter = 1 then .error .zeroDivisionError
  else
    let temp := tempAt decay_type init_temp final_temp niter k
    let visit_scale := visitScaleAt decay_type init_temp final_temp niter
                         init_visit_scale min_visit_scale k
    let x_new := contCandidate domain visit_scale (stdNormals k) s.x
    let fun_new := f x_new
    let p := (accept_boltzmann (fun_new - s.fval) temp).1
    if p ≥ rnd k then .ok ⟨x_new, fun_new, s.calls + 1⟩
    else .ok ⟨s.x, s.fval, s.calls + 1⟩

/-- `annealing` specialised to `domain_type == 'continuous'`.  In order:
the `decay_type` check (`raise ValueError`); the temperature sanity check,
whose `ValueError(...)` the source constructs but does NOT raise (missing
`raise`), so it never interrupts the flow; the computation of `decay_fac`
for `'exp'`, which raises `ZeroDivisionError` when `niter == 1` (integer
division `1/(niter-1)`); the initial vector `x0` (modelled as an oracle
for the uniform per-dimension draw) and its cost; then the annealing cycle
over `k in range(niter)`, returning the final `x` and `fun` (plus the
instrumented cost-call count). -/
noncomputable def annealingCont (f : List ℝ → ℝ) (domain : List (ℝ × ℝ))
    (init_temp final_temp : ℝ) (niter : ℕ) (decay_type : String)
    (init_visit_scale min_visit_scale : ℝ)
    (stdNormals : ℕ → List ℝ) (rnd : ℕ → ℝ) (x0 : List ℝ) :
    Except AnnealErr (List ℝ × ℝ × ℕ) :=
  if decay_type ∉ ["exp", "linear"] then
    .error (.valueError "Wrong decay type")
  else if decay_type = "exp" ∧ niter = 1 then .error .zeroDivisionError
  else
    match runLoop (contStep f domain init_temp final_temp niter decay_type
                     init_visit_scale min_visit_scale stdNormals rnd)
            (List.range niter) ⟨x0, f x0, 1⟩ with
    | .error e => .error e
    | .ok s => .ok (s.x, s.fval, s.calls)

/-- Python 3's built-in `round` on a real value: round half to even
(banker's rounding), as used in `range(round(visit_scale))`. -/
noncomputable def pyRound (x : ℝ) : ℤ :=
  if Int.fract x < 1 / 2 then ⌊x⌋
  else if 1 / 2 < Int.fract x then ⌊x⌋ + 1
  else if Even ⌊x⌋ then ⌊x⌋ else ⌊x⌋ + 1

/-- The element-swapping loop of the discrete visiting function:
starting from a copy of `x`, repeat `nswaps` times
`index = np.random.choice(range(dim)); state = np.random.choice(domain[index]);
x_new[index] = state`.  The two `np.random.choice` draws of swap `j` are
modelled by the oracle `picks j = (index, option position)`; the chosen
state is the option at that position in `domain[index]`. -/
noncomputable def discSwapLoop {α : Type} [Inhabited α]
    (domain : List (List α)) (picks : ℕ → ℕ × ℕ) (x : List α) :
    ℕ → List α
  | 0 => x
  | j + 1 =>
    let prev := discSwapLoop domain picks x j
    let index := (picks j).1
    let state := (domain.getD index []).getD (picks j).2 default
    prev.set index state

/-- One iteration of the annealing cycle for `domain_type == 'discrete'`,
at index `k`: same structure as `contStep`, with the candidate produced by
`round(visit_scale)` element swaps (`range` of a negative count is empty,
hence `Int.toNat`). -/
noncomputable def discStep {α : Type} [Inhabited α]
    (f : List α → ℝ) (domain : List (List α))
    (init_temp final_temp : ℝ) (niter : ℕ) (decay_type : String)
    (init_visit_scale min_visit_scale : ℝ)
    (picks : ℕ → ℕ → ℕ × ℕ) (rnd : ℕ → ℝ)
    (k : ℕ) (s : AState α) : Except AnnealErr (AState α) :=
  if decay_type = "linear" ∧ niter = 1 then .error .zeroDivisionError
  else
    let temp := tempAt decay_type init_temp final_temp niter k
    let visit_scale := visitScaleAt decay_type init_temp final_temp niter
                         init_visit_scale min_visit_scale k
    let x_new := discSwapLoop domain (picks k) s.x (pyRound visit_scale).toNat
    let fun_new := f x_new
    let p := (accept_boltzmann (fun_new - s.fval) temp).1
    if p ≥ rnd k then .ok ⟨x_new, fun_new, s.calls + 1⟩
    else .ok ⟨s.x, s.fval, s.calls + 1⟩

/-- `annealing` specialised to `domain_type == 'discrete'`: identical to
`annealingCont` except for the candidate generation (see `discStep`) and
the initial vector, drawn per dimension from the option lists (modelled as
the oracle `x0`). -/
noncomputable def annealingDisc {α : Type} [Inhabited α]
    (f : List α → ℝ) (domain : List (List α))
    (init_temp final_temp : ℝ) (niter : ℕ) (decay_type : String)
    (init_visit_scale min_visit_scale : ℝ)
    (picks : ℕ → ℕ → ℕ × ℕ) (rnd : ℕ → ℝ) (x0 : List α) :
    Except AnnealErr (List α × ℝ × ℕ) :=
  if decay_type ∉ ["exp", "linear"] then
    .error (.valueError "Wrong decay type")
  else if decay_type = "exp" ∧ niter = 1 then .error .zeroDivisionError
  else
    match runLoop (discStep f domain init_temp final_temp niter decay_type
                     init_visit_scale min_visit_scale picks rnd)
            (List.range niter) ⟨x0, f x0, 1⟩ with
    | .error e => .error e
    | .ok s => .ok (s.x, s.fval, s.calls)

/-! ## Helper lemmas -/

theorem fmod_eq_mul_fract (a b : ℝ) (hb : b ≠ 0) :
    fmod a b = b * Int.fract (a / b) := by
  unfold fmod Int.fract
  field_simp

theorem fmod_nonneg (a b : ℝ) (hb : 0 < b) : 0 ≤ fmod a b := by
  rw [fmod_eq_mul_fract a b hb.ne']
  exact mul_nonneg hb.le (Int.fract_nonneg _)

theorem fmod_lt (a b : ℝ) (hb : 0 < b) : fmod a b < b := by
  rw [fmod_eq_mul_fract a b hb.ne']
  calc b * Int.fract (a / b) < b * 1 :=
        (mul_lt_mul_left hb).mpr (Int.fract_lt_one _)
    _ = b := mul_one b

/-- The wrapped value always lies in `[xmin, xmax]` when `xmin < xmax`. -/
theorem wrapOne_mem (x xmin xmax : ℝ) (h : xmin < xmax) :
    xmin ≤ (wrapOne x xmin xmax).1 ∧ (wrapOne x xmin xmax).1 ≤ xmax := by
  unfold wrapOne
  by_cases hc : x < xmin ∨ x > xmax
  · rw [if_pos hc]
    have hpos : 0 < xmax - xmin := by linarith
    have h1 := fmod_nonneg (x - xmin) (xmax - xmin) hpos
    have h2 := fmod_lt (x - xmin) (xmax - xmin) hpos
    constructor <;> simp only <;> linarith
  · rw [if_neg hc]
    push_neg at hc
    exact ⟨hc.1, hc.2⟩

/-! ## Claim theorems -/

/-- C4: for every finite `delta <= 0` and strictly positive temperature the
acceptance probability is exactly `1` and the `np.exp` branch is not taken,
so the candidate is accepted (`p >= rn`) for every uniform draw `u` in
`[0,1)`; the `np.exp` branch is taken exactly when the exponent
`-delta/temperature` is negative. -/
theorem accept_boltzmann_improving (df temp u : ℝ) (hdf : df ≤ 0)
    (ht : 0 < temp) (_hu0 : 0 ≤ u) (hu1 : u < 1) :
    accept_boltzmann df temp = (1, false) ∧
    (accept_boltzmann df temp).1 ≥ u ∧
    (∀ d t : ℝ, ((accept_boltzmann d t).2 = true ↔ -1 * d / t < 0)) := by
  have ha : -1 * df / temp ≥ 0 := by
    apply div_nonneg _ ht.le
    linarith
  refine ⟨?_, ?_, ?_⟩
  · rw [accept_boltzmann, if_pos ha]
  · rw [accept_boltzmann, if_pos ha]
    simp only
    linarith
  · intro d t
    by_cases hdt : -1 * d / t ≥ 0
    · rw [accept_boltzmann, if_pos hdt]
      simp only [Bool.false_eq_true, false_iff, not_lt]
      exact hdt
    · rw [accept_boltzmann, if_neg hdt]
      simp only [true_iff]
      linarith [not_le.mp hdt]

theorem accept_boltzmann_improving_witness :
    accept_boltzmann (-2) 3 = (1, false) ∧
    (accept_boltzmann (-2) 3).1 ≥ 1 / 2 ∧
    (∀ d t : ℝ, ((accept_boltzmann d t).2 = true ↔ -1 * d / t < 0)) :=
  accept_boltzmann_improving (-2) 3 (1 / 2) (by norm_num) (by norm_num)
    (by norm_num) (by norm_num)

/-- C7: for a dimension with `min < max`, periodic wrapping leaves an
in-bounds value unchanged, maps an out-of-bounds value to
`min + ((x - min) mod (max - min))`, which lies within `[min, max]`, and is
idempotent. -/
theorem wrapOne_spec (x xmin xmax : ℝ) (h : xmin < xmax) :
    (xmin ≤ x ∧ x ≤ xmax → (wrapOne x xmin xmax).1 = x) ∧
    (x < xmin ∨ x > xmax →
      (wrapOne x xmin xmax).1 = xmin + fmod (x - xmin) (xmax - xmin) ∧
      xmin ≤ (wrapOne x xmin xmax).1 ∧ (wrapOne x xmin xmax).1 ≤ xmax) ∧
    (wrapOne (wrapOne x xmin xmax).1 xmin xmax).1 = (wrapOne x xmin xmax).1 := by
  refine ⟨?_, ?_, ?_⟩
  · intro hin
    rw [wrapOne, if_neg]
    push_neg
    exact ⟨hin.1, hin.2⟩
  · intro hout
    refine ⟨?_, wrapOne_mem x xmin xmax h⟩
    rw [wrapOne, if_pos hout]
  · have hmem := wrapOne_mem x xmin xmax h
    rw [wrapOne, if_neg]
    push_neg
    exact ⟨hmem.1, hmem.2⟩

theorem wrapOne_spec_witness :
    (wrapOne 17 2 8).1 = 2 + fmod (17 - 2) (8 - 2) ∧
    2 ≤ (wrapOne 17 2 8).1 ∧ (wrapOne 17 2 8).1 ≤ 8 ∧
    (wrapOne (wrapOne 17 2 8).1 2 8).1 = (wrapOne 17 2 8).1 := by
  have h := wrapOne_spec 17 2 8 (by norm_num)
  have h2 := h.2.1 (by norm_num)
  exact ⟨h2.1, h2.2.1, h2.2.2, h.2.2⟩

/-- C8: at every iteration `k` the visit scale equals
`max(init_visit_scale*(temp/init_temp), min_visit_scale)` and is therefore
bounded below by `min_visit_scale`, for every configuration and step. -/
theorem visitScaleAt_floor (decay_type : String) (init_temp final_temp : ℝ)
    (niter : ℕ) (init_visit_scale min_visit_scale : ℝ) (k : ℕ) :
    visitScaleAt decay_type init_temp final_temp niter
        init_visit_scale min_visit_scale k
      = max (init_visit_scale *
              (tempAt decay_type init_temp final_temp niter k / init_temp))
            min_visit_scale ∧
    min_visit_scale ≤ visitScaleAt decay_type init_temp final_temp niter
        init_visit_scale min_visit_scale k :=
  ⟨rfl, le_max_right _ _⟩

/-- C5: for `niter >= 2` and positive temperatures, both schedules hit
`init_temp` exactly at `k = 0` and `final_temp` exactly at `k = niter-1`
(exact in the real-number model; the float implementation of the
exponential case matches to rounding). -/
theorem schedule_boundary (init_temp final_temp : ℝ) (niter : ℕ)
    (hn : 2 ≤ niter) (hit : 0 < init_temp) (hft : 0 < final_temp) :
    linearTemp init_temp final_temp niter 0 = init_temp ∧
    linearTemp init_temp final_temp niter (niter - 1) = final_temp ∧
    expTemp init_temp final_temp niter 0 = init_temp ∧
    expTemp init_temp final_temp niter (niter - 1) = final_temp := by
  have hcast : ((niter - 1 : ℕ) : ℝ) = (niter : ℝ) - 1 := by
    have h1 : 1 ≤ niter := le_trans (by norm_num) hn
    push_cast [Nat.cast_sub h1]
    ring
  have hne : (niter : ℝ) - 1 ≠ 0 := by
    have : (2 : ℝ) ≤ (niter : ℝ) := by exact_mod_cast hn
    linarith
  refine ⟨?_, ?_, ?_, ?_⟩
  · simp [linearTemp]
  · rw [linearTemp, hcast, div_self hne]
    ring
  · simp [expTemp]
  · rw [expTemp, decay_fac, hcast]
    have harg : Real.log (final_temp / init_temp) * (1 / ((niter : ℝ) - 1))
        * ((niter : ℝ) - 1) = Real.log (final_temp / init_temp) := by
      field_simp
    rw [harg, Real.exp_log (div_pos hft hit)]
    field_simp

theorem schedule_boundary_witness :
    linearTemp 2 1 3 0 = 2 ∧ linearTemp 2 1 3 (3 - 1) = 1 ∧
    expTemp 2 1 3 0 = 2 ∧ expTemp 2 1 3 (3 - 1) = 1 :=
  schedule_boundary 2 1 3 (by norm_num) (by norm_num) (by norm_num)

/-- C6: for `niter >= 2` and `0 < final_temp < init_temp`, the exponential
schedule is non-increasing in `k`, and the linear schedule has constant
successive differences `temp(k+1) - temp(k) = (final_temp - init_temp) /
(niter - 1)` (exactly linear in `k`). -/
theorem schedule_decay (init_temp final_temp : ℝ) (niter : ℕ)
    (hn : 2 ≤ niter) (hft : 0 < final_temp) (hlt : final_temp < init_temp) :
    (∀ k l : ℕ, k ≤ l →
      expTemp init_temp final_temp niter l ≤ expTemp init_temp final_temp niter k) ∧
    (∀ k : ℕ, linearTemp init_temp final_temp niter (k + 1)
        - linearTemp init_temp final_temp niter k
        = (final_temp - init_temp) / ((niter : ℝ) - 1)) := by
  have hit : 0 < init_temp := lt_trans hft hlt
  have hn1 : (0 : ℝ) < (niter : ℝ) - 1 := by
    have : (2 : ℝ) ≤ (niter : ℝ) := by exact_mod_cast hn
    linarith
  constructor
  · intro k l hkl
    have hlog : Real.log (final_temp / init_temp) < 0 :=
      Real.log_neg (div_pos hft hit) ((div_lt_one hit).mpr hlt)
    have hfac : decay_fac init_temp final_temp niter ≤ 0 := by
      rw [decay_fac]
      apply mul_nonpos_of_nonpos_of_nonneg hlog.le
      positivity
    have hmul : decay_fac init_temp final_temp niter * (l : ℝ)
        ≤ decay_fac init_temp final_temp niter * (k : ℝ) := by
      apply mul_le_mul_of_nonpos_left _ hfac
      exact_mod_cast hkl
    rw [expTemp, expTemp]
    exact mul_le_mul_of_nonneg_left (Real.exp_le_exp.mpr hmul) hit.le
  · intro k
    rw [linearTemp, linearTemp]
    push_cast
    field_simp
    ring

theorem schedule_decay_witness :
    expTemp 2 1 3 1 ≤ expTemp 2 1 3 0 ∧
    linearTemp 2 1 3 (0 + 1) - linearTemp 2 1 3 0 = (1 - 2) / ((3 : ℝ) - 1) := by
  have h := schedule_decay 2 1 3 (by norm_num) (by norm_num) (by norm_num)
  exact ⟨h.1 0 1 (by norm_num), h.2 0⟩

/-- Outside the `decay_type == 'linear'`/`niter == 1` division-by-zero
case, a continuous-domain iteration always succeeds and performs exactly
one cost-function call. -/
theorem contStep_isOk (f : List ℝ → ℝ) (domain : List (ℝ × ℝ))
    (init_temp final_temp : ℝ) (niter : ℕ) (decay_type : String)
    (ivs mvs : ℝ) (stdNormals : ℕ → List ℝ) (rnd : ℕ → ℝ)
    (hk : ¬(decay_type = "linear" ∧ niter = 1)) (k : ℕ) (s : AState ℝ) :
    ∃ s', contStep f domain init_temp final_temp niter decay_type ivs mvs
        stdNormals rnd k s = .ok s' ∧ s'.calls = s.calls + 1 := by
  rw [contStep, if_neg hk]
  dsimp only
  split
  · exact ⟨_, rfl, rfl⟩
  · exact ⟨_, rfl, rfl⟩

/-- Running the continuous-domain loop over any index list succeeds and
adds one cost-function call per iteration. -/
theorem runLoop_contStep_isOk (f : List ℝ → ℝ) (domain : List (ℝ × ℝ))
    (init_temp final_temp : ℝ) (niter : ℕ) (decay_type : String)
    (ivs mvs : ℝ) (stdNormals : ℕ → List ℝ) (rnd : ℕ → ℝ)
    (hk : ¬(decay_type = "linear" ∧ niter = 1)) :
    ∀ (l : List ℕ) (s : AState ℝ),
      ∃ s', runLoop (contStep f domain init_temp final_temp niter decay_type
          ivs mvs stdNormals rnd) l s = .ok s' ∧ s'.calls = s.calls + l.length
  | [], s => ⟨s, rfl, rfl⟩
  | k :: ks, s => by
    obtain ⟨s1, hs1, hc1⟩ := contStep_isOk f domain init_temp final_temp niter
      decay_type ivs mvs stdNormals rnd hk k s
    obtain ⟨s', hs', hc'⟩ := runLoop_contStep_isOk f domain init_temp
      final_temp niter decay_type ivs mvs stdNormals rnd hk ks s1
    refine ⟨s', ?_, ?_⟩
    · rw [runLoop, hs1, Except.bind, hs']
    · rw [hc', hc1, List.length_cons]
      ring

/-- C9: the acceptance decision only switches between adopting
`(x_new, fun_new)` and keeping `(x, fun)` — nothing else in the tracked
state depends on it (the instrumented call counter advances identically in
both branches) — and, when the loop completes, `annealing` returns exactly
the final state's vector and cost. -/
theorem step_update_and_return {α : Type} [Inhabited α]
    (f : List ℝ → ℝ) (domain : List (ℝ × ℝ))
    (init_temp final_temp : ℝ) (niter : ℕ) (decay_type : String)
    (ivs mvs : ℝ) (stdNormals : ℕ → List ℝ) (rnd : ℕ → ℝ) (x0 : List ℝ)
    (g : List α → ℝ) (gdomain : List (List α)) (picks : ℕ → ℕ → ℕ × ℕ)
    (y0 : List α) (k : ℕ) (s sfin : AState ℝ) (t : AState α)
    (hk : ¬(decay_type = "linear" ∧ niter = 1))
    (hdt : decay_type = "exp" ∨ decay_type = "linear")
    (hexp1 : ¬(decay_type = "exp" ∧ niter = 1))
    (hrun : runLoop (contStep f domain init_temp final_temp niter decay_type
        ivs mvs stdNormals rnd) (List.range niter) ⟨x0, f x0, 1⟩ = .ok sfin) :
    (((accept_boltzmann
          (f (contCandidate domain
                (visitScaleAt decay_type init_temp final_temp niter ivs mvs k)
                (stdNormals k) s.x) - s.fval)
          (tempAt decay_type init_temp final_temp niter k)).1 ≥ rnd k →
        contStep f domain init_temp final_temp niter decay_type ivs mvs
            stdNormals rnd k s
          = .ok ⟨contCandidate domain
                  (visitScaleAt decay_type init_temp final_temp niter ivs mvs k)
                  (stdNormals k) s.x,
                f (contCandidate domain
                    (visitScaleAt decay_type init_temp final_temp niter ivs mvs k)
                    (stdNormals k) s.x),
                s.calls + 1⟩) ∧
      (¬((accept_boltzmann
          (f (contCandidate domain
                (visitScaleAt decay_type init_temp final_temp niter ivs mvs k)
                (stdNormals k) s.x) - s.fval)
          (tempAt decay_type init_temp final_temp niter k)).1 ≥ rnd k) →
        contStep f domain init_temp final_temp niter decay_type ivs mvs
            stdNormals rnd k s
          = .ok ⟨s.x, s.fval, s.calls + 1⟩)) ∧
    annealingCont f domain init_temp final_temp niter decay_type ivs mvs
        stdNormals rnd x0
      = .ok (sfin.x, sfin.fval, sfin.calls) ∧
    (((accept_boltzmann
          (g (discSwapLoop gdomain (picks k) t.x
                (pyRound (visitScaleAt decay_type init_temp final_temp niter
                  ivs mvs k)).toNat) - t.fval)
          (tempAt decay_type init_temp final_temp niter k)).1 ≥ rnd k →
        discStep g gdomain init_temp final_temp niter decay_type ivs mvs
            picks rnd k t
          = .ok ⟨discSwapLoop gdomain (picks k) t.x
                  (pyRound (visitScaleAt decay_type init_temp final_temp niter
                    ivs mvs k)).toNat,
                g (discSwapLoop gdomain (picks k) t.x
                    (pyRound (visitScaleAt decay_type init_temp final_temp
                      niter ivs mvs k)).toNat),
                t.calls + 1⟩) ∧
      (¬((accept_boltzmann
          (g (discSwapLoop gdomain (picks k) t.x
                (pyRound (visitScaleAt decay_type init_temp final_temp niter
                  ivs mvs k)).toNat) - t.fval)
          (tempAt decay_type init_temp final_temp niter k)).1 ≥ rnd k) →
        discStep g gdomain init_temp final_temp niter decay_type ivs mvs
            picks rnd k t
          = .ok ⟨t.x, t.fval, t.calls + 1⟩)) ∧
    (∀ tfin : AState α,
      runLoop (discStep g gdomain init_temp final_temp niter decay_type
          ivs mvs picks rnd) (List.range niter) ⟨y0, g y0, 1⟩ = .ok tfin →
        annealingDisc g gdomain init_temp final_temp niter decay_type ivs mvs
            picks rnd y0
          = .ok (tfin.x, tfin.fval, tfin.calls)) := by
  have hmem : ¬decay_type ∉ ["exp", "linear"] := by
    simp only [List.mem_cons, List.not_mem_nil, or_false, not_not]
    exact hdt
  refine ⟨⟨?_, ?_⟩, ?_, ⟨?_, ?_⟩, ?_⟩
  · intro hacc
    rw [contStep, if_neg hk]
    dsimp only
    rw [if_pos hacc]
  · intro hrej
    rw [contStep, if_neg hk]
    dsimp only
    rw [if_neg hrej]
  · rw [annealingCont, if_neg hmem, if_neg hexp1, hrun]
  · intro hacc
    rw [discStep, if_neg hk]
    dsimp only
    rw [if_pos hacc]
  · intro hrej
    rw [discStep, if_neg hk]
    dsimp only
    rw [if_neg hrej]
  · intro tfin hrunD
    rw [annealingDisc, if_neg hmem, if_neg hexp1, hrunD]

theorem step_update_and_return_witness :
    annealingCont (fun _ => 0) [] 1 1 0 "exp" 1 1 (fun _ => []) (fun _ => 0) []
      = .ok ([], 0, 1) :=
  (step_update_and_return (α := ℕ) (fun _ => 0) [] 1 1 0 "exp" 1 1
    (fun _ => []) (fun _ => 0) [] (fun _ => 0) [] (fun _ _ => (0, 0)) [] 0
    ⟨[], 0, 0⟩ ⟨[], 0, 1⟩ ⟨[], 0, 0⟩ (by simp) (Or.inl rfl) (by simp)
    rfl).2.1

/-- C1 evidence: with `init_temp = 1`, `final_temp = 1e-16` the
below-threshold condition of the temperature sanity check holds, yet
`annealing` signals no error: the source constructs the `ValueError`
without `raise`, so the run proceeds, performs both iterations (three
cost-function calls: the initial one plus one per iteration) and returns
normally. -/
theorem temp_check_never_raises (f : List ℝ → ℝ) (domain : List (ℝ × ℝ))
    (ivs mvs : ℝ) (stdNormals : ℕ → List ℝ) (rnd : ℕ → ℝ) (x0 : List ℝ) :
    tempBelowThreshold 1 1e-16 ∧
    ∃ xr fr, annealingCont f domain 1 1e-16 2 "exp" ivs mvs stdNormals rnd x0
        = .ok (xr, fr, 3) := by
  constructor
  · rw [tempBelowThreshold, npFloatResolution, min_eq_left (by norm_num)]
    norm_num
  · obtain ⟨s', hs', hc'⟩ := runLoop_contStep_isOk f domain 1 1e-16 2 "exp"
      ivs mvs stdNormals rnd (by simp) (List.range 2) ⟨x0, f x0, 1⟩
    refine ⟨s'.x, s'.fval, ?_⟩
    rw [annealingCont, if_neg (by simp), if_neg (by simp), hs']
    have hc3 : s'.calls = 3 := by
      rw [hc']
      simp
    dsimp only
    rw [hc3]

/-- C2 counterexample: with `niter = 0` (`niter < 1`) no configuration
error is signaled; the run returns the initial vector and the cost value
`3`, and the instrumented call counter shows the cost function was invoked
exactly once. -/
theorem niter_zero_not_rejected :
    annealingCont (fun _ => 3) [(0, 1)] 1000 (1 / 100) 0 "exp" 1000 1
      (fun _ => [0]) (fun _ => 1 / 2) [0] = .ok ([0], 3, 1) := by
  rfl

/-- C2 amended: `annealing` performs no `niter` validation: for
`niter = 0` and either recognized decay type it signals nothing, draws the
initial vector, invokes the cost function exactly once on it, runs zero
loop iterations and returns that vector with its cost.  The statement
holds for every domain, so no continuous-bounds validation happens either. -/
theorem niter_zero_returns_initial (f : List ℝ → ℝ) (domain : List (ℝ × ℝ))
    (init_temp final_temp ivs mvs : ℝ) (stdNormals : ℕ → List ℝ)
    (rnd : ℕ → ℝ) (x0 : List ℝ) (decay_type : String)
    (hdt : decay_type = "exp" ∨ decay_type = "linear") :
    annealingCont f domain init_temp final_temp 0 decay_type ivs mvs
      stdNormals rnd x0 = .ok (x0, f x0, 1) := by
  have h1 : ¬decay_type ∉ ["exp", "linear"] := by
    simp only [List.mem_cons, List.not_mem_nil, or_false, not_not]
    exact hdt
  rw [annealingCont, if_neg h1, if_neg (by simp), List.range_zero]
  rfl

theorem niter_zero_returns_initial_witness :
    annealingCont (fun _ => 0) [(1, 0)] 1 1 0 "linear" 1 1 (fun _ => [0])
      (fun _ => 0) [0] = .ok ([0], 0, 1) :=
  niter_zero_returns_initial (fun _ => 0) [(1, 0)] 1 1 1 1 (fun _ => [0])
    (fun _ => 0) [0] "linear" (Or.inr rfl)

/-- C3 counterexample: at `niter = 1` with `decay_type = 'exp'` the
computation of `decay_fac` divides by `niter - 1 = 0` and the call fails
with `ZeroDivisionError` instead of completing normally. -/
theorem niter_one_not_completing :
    annealingCont (fun _ => 0) [(0, 1)] 1000 (1 / 100) 1 "exp" 1000 1
      (fun _ => [0]) (fun _ => 1 / 2) [0] = .error .zeroDivisionError := by
  rfl

/-- C3 amended: for `niter = 1` both decay types and both domain types
fail with `ZeroDivisionError`: `'exp'` when computing `decay_fac =
np.log(final_temp/init_temp)*(1/(niter-1))` before the loop, `'linear'`
inside the first iteration when computing `k/(niter-1)`. -/
theorem niter_one_divides_by_zero {α : Type} [Inhabited α]
    (f : List ℝ → ℝ) (domain : List (ℝ × ℝ))
    (init_temp final_temp ivs mvs : ℝ) (stdNormals : ℕ → List ℝ)
    (rnd : ℕ → ℝ) (x0 : List ℝ) (g : List α → ℝ)
    (gdomain : List (List α)) (picks : ℕ → ℕ → ℕ × ℕ) (y0 : List α) :
    annealingCont f domain init_temp final_temp 1 "exp" ivs mvs stdNormals
        rnd x0 = .error .zeroDivisionError ∧
    annealingCont f domain init_temp final_temp 1 "linear" ivs mvs
        stdNormals rnd x0 = .error .zeroDivisionError ∧
    annealingDisc g gdomain init_temp final_temp 1 "exp" ivs mvs picks
        rnd y0 = .error .zeroDivisionError ∧
    annealingDisc g gdomain init_temp final_temp 1 "linear" ivs mvs picks
        rnd y0 = .error .zeroDivisionError := by
  have hr1 : List.range 1 = [0] := rfl
  refine ⟨?_, ?_, ?_, ?_⟩
  · rw [annealingCont, if_neg (by simp), if_pos ⟨rfl, rfl⟩]
  · rw [annealingCont, if_neg (by simp), if_neg (by simp), hr1,
      runLoop, contStep, if_pos ⟨rfl, rfl⟩]
    rfl
  · rw [annealingDisc, if_neg (by simp), if_pos ⟨rfl, rfl⟩]
  · rw [annealingDisc, if_neg (by simp), if_neg (by simp), hr1,
      runLoop, discStep, if_pos ⟨rfl, rfl⟩]
    rfl

/-- C10: in a discrete-domain iteration with `round(visit_scale) = 0`
(which holds whenever `0 <= visit_scale < 0.5`, last conjunct), the swap
loop performs zero swaps so the candidate equals the current vector, the
cost difference is `0`, the acceptance probability is exactly `1`, and the
step is accepted, leaving the state's vector and cost unchanged. -/
theorem zero_swaps_noop {α : Type} [Inhabited α] (f : List α → ℝ)
    (domain : List (List α)) (init_temp final_temp : ℝ) (niter : ℕ)
    (decay_type : String) (ivs mvs : ℝ) (picks : ℕ → ℕ → ℕ × ℕ)
    (rnd : ℕ → ℝ) (k : ℕ) (s : AState α)
    (hk : ¬(decay_type = "linear" ∧ niter = 1))
    (hvs : pyRound (visitScaleAt decay_type init_temp final_temp niter
        ivs mvs k) = 0)
    (hs : s.fval = f s.x)
    (hrnd : rnd k < 1) :
    discSwapLoop domain (picks k) s.x
        (pyRound (visitScaleAt decay_type init_temp final_temp niter
          ivs mvs k)).toNat = s.x ∧
    f s.x - s.fval = 0 ∧
    (accept_boltzmann (f s.x - s.fval)
        (tempAt decay_type init_temp final_temp niter k)).1 = 1 ∧
    discStep f domain init_temp final_temp niter decay_type ivs mvs picks
        rnd k s = .ok ⟨s.x, s.fval, s.calls + 1⟩ ∧
    (∀ v : ℝ, 0 ≤ v → v < 1 / 2 → pyRound v = 0) := by
  have h0 : (pyRound (visitScaleAt decay_type init_temp final_temp niter
      ivs mvs k)).toNat = 0 := by
    rw [hvs]
    rfl
  have hswap : discSwapLoop domain (picks k) s.x
      (pyRound (visitScaleAt decay_type init_temp final_temp niter
        ivs mvs k)).toNat = s.x := by
    rw [h0, discSwapLoop]
  have hdf : f s.x - s.fval = 0 := by
    rw [hs, sub_self]
  have hacc : (accept_boltzmann (f s.x - s.fval)
      (tempAt decay_type init_temp final_temp niter k)).1 = 1 := by
    rw [hdf, accept_boltzmann, if_pos (by simp)]
  refine ⟨hswap, hdf, hacc, ?_, ?_⟩
  · rw [discStep, if_neg hk]
    dsimp only
    rw [hswap, if_pos (by rw [hacc]; linarith), ← hs]
  · intro v h0v h1v
    have hfl : ⌊v⌋ = 0 :=
      Int.floor_eq_zero_iff.mpr (Set.mem_Ico.mpr ⟨h0v, by linarith⟩)
    have hfr : Int.fract v = v := by
      rw [Int.fract, hfl]
      simp
    rw [pyRound, if_pos (by rw [hfr]; exact h1v)]
    exact hfl

theorem zero_swaps_noop_witness :
    discStep (fun _ => (0 : ℝ)) [[0, 1]] 1 1 2 "linear" (1 / 4) (1 / 8)
      (fun _ _ => (0, 0)) (fun _ => 1 / 2) 0 ⟨[0], 0, 0⟩
      = .ok ⟨[0], 0, 1⟩ := by
  have hv : visitScaleAt "linear" 1 1 2 (1 / 4) (1 / 8) 0 = 1 / 4 := by
    rw [visitScaleAt, tempAt, if_pos rfl, linearTemp]
    norm_num
  have hfl : ⌊(1 / 4 : ℝ)⌋ = 0 :=
    Int.floor_eq_zero_iff.mpr (Set.mem_Ico.mpr ⟨by norm_num, by norm_num⟩)
  have hfr : Int.fract (1 / 4 : ℝ) = 1 / 4 := by
    rw [Int.fract, hfl]
    norm_num
  have hvs : pyRound (visitScaleAt "linear" 1 1 2 (1 / 4) (1 / 8) 0) = 0 := by
    rw [hv, pyRound, if_pos (by rw [hfr]; norm_num)]
    exact hfl
  exact (zero_swaps_noop (α := ℕ) (fun _ => (0 : ℝ)) [[0, 1]] 1 1 2 "linear"
    (1 / 4) (1 / 8) (fun _ _ => (0, 0)) (fun _ => 1 / 2) 0 ⟨[0], 0, 0⟩
    (by simp) hvs rfl (by norm_num)).2.2.2.1

end Annealing
